import Mathlib

/-!
Verification development for the `daurenabilev` repository.

The repository's algorithmic core is `currency_change_rate/monitor.py`:
an EWMA (exponentially weighted moving average) anomaly detector over
log-returns of a fetched currency price, together with a schema-tolerant
normalizer (`normalize_rates`) and a price selector (`select_price`) over
JSON-like provider documents.  A second script,
`happy_birthday_anara/send_daily.py`, picks a daily message from a fixed
365-day schedule.

This file gives a shallow embedding of those parts:
* real numbers model Python floats (ideal real semantics for the numeric
  recurrence), timestamps are modelled as real-valued seconds since an epoch
  (the ISO-8601 parsing in `parse_iso` is glue and is elided);
* a `Json` inductive models the Python objects produced by `response.json()`,
  with rationals for numbers; Python truthiness, `dict.get`, and the `or`
  operator are embedded explicitly;
* fallible paths return `Except`: an `AttributeError`/`TypeError` style crash
  is `PErr.typeError`, the `ValueError` raised by `select_price` when the pair
  is missing is `PErr.notFound`.
-/

/-! ### Constants of `monitor.py` (lines 9-14) -/

def PAIR : String := "EURKZT"

noncomputable def LAMBDA : ℝ := 0.1

noncomputable def Z_THRESHOLD : ℝ := 3.0

noncomputable def COOLDOWN_HOURS : ℝ := 3

def WARMUP_HOURS : ℕ := 48

noncomputable def EPS : ℝ := 1e-12

/-! ### Timestamps (`hours_between`, lines 30-33)

Timestamps are modelled as real-valued seconds since an epoch; the
`datetime` subtraction `(dt_a - dt_b).total_seconds()` is then `a - b`. -/

/-- Embeds `hours_between`: absolute difference of two timestamps in hours. -/
noncomputable def hours_between (ts_a ts_b : ℝ) : ℝ :=
  |ts_a - ts_b| / 3600

/-! ### Model state (`load_state`, lines 193-203) -/

/-- The persisted model state dictionary of `monitor.py` (keys `prev_price`,
`mu`, `var`, `last_alert_time`, `n`). -/
structure MState where
  prev_price : Option ℝ
  mu : ℝ
  var : ℝ
  last_alert_time : Option ℝ
  n : ℕ

/-- The default state returned by `load_state` when no state file exists. -/
noncomputable def init_state : MState :=
  { prev_price := none, mu := 0.0, var := 1e-8, last_alert_time := none, n := 0 }

/-- A history row as written by `save_row`: on the bootstrap run the `r`, `z`
and alert columns are written as empty strings, which is modelled by `none`
and `AlertFlag.empty`. -/
inductive AlertFlag where
  | empty
  | no_alert
  | alert
deriving DecidableEq, Repr

structure HistoryRow where
  time : ℝ
  price : ℝ
  r : Option ℝ
  z : Option ℝ
  alert : AlertFlag

/-! ### The EWMA detection block (`main`, lines 237-243) -/

/-- The straight-line detection computation of `main` (lines 237-242):
log-return, EWMA mean update, residual against the updated mean, EWMA
variance update, and z-score. -/
structure Detect where
  r : ℝ
  mu : ℝ
  err : ℝ
  var : ℝ
  z : ℝ

noncomputable def detect (mu var p_prev price : ℝ) : Detect :=
  let r_value := Real.log (price / p_prev)
  let mu2 := LAMBDA * r_value + (1 - LAMBDA) * mu
  let err := r_value - mu2
  let var2 := LAMBDA * err ^ 2 + (1 - LAMBDA) * var
  let sigma := Real.sqrt (var2 + EPS)
  let z_value := err / sigma
  { r := r_value, mu := mu2, err := err, var := var2, z := z_value }

/-- Embeds the cooldown test of `main` (lines 247-249): truthiness of
`state["last_alert_time"]` followed by `hours_between(ts, last) < 3`. -/
def in_cooldown (ts : ℝ) (last : Option ℝ) : Prop :=
  match last with
  | some t => hours_between ts t < COOLDOWN_HOURS
  | none => False

noncomputable instance (ts : ℝ) (last : Option ℝ) : Decidable (in_cooldown ts last) :=
  match last with
  | some t => (inferInstance : Decidable (hours_between ts t < COOLDOWN_HOURS))
  | none => isFalse (fun h => h)

/-- Embeds one tick of `main` (lines 231-257) after a successful fetch:
bootstrap branch when `prev_price` is absent, otherwise the EWMA update,
warm-up and cooldown gating, and the alert flag.  `send_alert` is called
exactly when the returned row's alert flag is `AlertFlag.alert`. -/
noncomputable def monitor_tick (state : MState) (price ts : ℝ) : MState × HistoryRow :=
  match state.prev_price with
  | none =>
      ({ state with prev_price := some price },
       { time := ts, price := price, r := none, z := none, alert := AlertFlag.empty })
  | some prev =>
      let d := detect state.mu state.var prev price
      let n2 := state.n + 1
      if WARMUP_HOURS ≤ n2 then
        if Z_THRESHOLD ≤ |d.z| ∧ ¬ in_cooldown ts state.last_alert_time then
          ({ prev_price := some price, mu := d.mu, var := d.var,
             last_alert_time := some ts, n := n2 },
           { time := ts, price := price, r := some d.r, z := some d.z,
             alert := AlertFlag.alert })
        else
          ({ prev_price := some price, mu := d.mu, var := d.var,
             last_alert_time := state.last_alert_time, n := n2 },
           { time := ts, price := price, r := some d.r, z := some d.z,
             alert := AlertFlag.no_alert })
      else
        ({ prev_price := some price, mu := d.mu, var := d.var,
           last_alert_time := state.last_alert_time, n := n2 },
         { time := ts, price := price, r := some d.r, z := some d.z,
           alert := AlertFlag.no_alert })

/-! ### A whole invocation of `main` (lines 225-257)

`main` loads the state, fetches the price (any fetch or parse exception
propagates and aborts the process before any write), and only then appends a
history row and saves the updated state.  The persisted files are modelled as
a `World`; a failed fetch is `Except.error`. -/

structure World where
  state : MState
  history : List HistoryRow

noncomputable def init_world : World :=
  { state := init_state, history := [] }

/-- Embeds one invocation of `main`: on a fetch failure the exception aborts
the run before `save_row`/`save_state`, so the persisted world is unchanged;
on success the tick runs, a row is appended and the state is overwritten. -/
noncomputable def main_step (w : World) (fetch : Except String ℝ) (ts : ℝ) : World :=
  match fetch with
  | Except.error _ => w
  | Except.ok price =>
      { state := (monitor_tick w.state price ts).1,
        history := w.history ++ [(monitor_tick w.state price ts).2] }

/-- A sequence of scheduler invocations, each with its fetch outcome and its
timestamp. -/
noncomputable def exec (w : World) (runs : List (Except String ℝ × ℝ)) : World :=
  runs.foldl (fun acc run => main_step acc run.1 run.2) w

/-- A sequence of invocations whose fetches all succeed, starting from the
default (fresh) world. -/
noncomputable def exec_ok (runs : List (ℝ × ℝ)) : World :=
  exec init_world (runs.map fun run => (Except.ok run.1, run.2))

/-! ### Reduction lemmas for `monitor_tick` -/

lemma monitor_tick_none (s : MState) (price ts : ℝ) (h : s.prev_price = none) :
    monitor_tick s price ts =
      ({ s with prev_price := some price },
       { time := ts, price := price, r := none, z := none, alert := AlertFlag.empty }) := by
  unfold monitor_tick
  rw [h]

lemma monitor_tick_some (mu var p_prev : ℝ) (la : Option ℝ) (n : ℕ) (price ts : ℝ) :
    monitor_tick ⟨some p_prev, mu, var, la, n⟩ price ts =
      (if WARMUP_HOURS ≤ n + 1 ∧ Z_THRESHOLD ≤ |(detect mu var p_prev price).z| ∧
          ¬ in_cooldown ts la then
        (⟨some price, (detect mu var p_prev price).mu, (detect mu var p_prev price).var,
            some ts, n + 1⟩,
         { time := ts, price := price, r := some (detect mu var p_prev price).r,
           z := some (detect mu var p_prev price).z, alert := AlertFlag.alert })
      else
        (⟨some price, (detect mu var p_prev price).mu, (detect mu var p_prev price).var,
            la, n + 1⟩,
         { time := ts, price := price, r := some (detect mu var p_prev price).r,
           z := some (detect mu var p_prev price).z, alert := AlertFlag.no_alert })) := by
  by_cases h1 : WARMUP_HOURS ≤ n + 1 <;>
    by_cases h2 : Z_THRESHOLD ≤ |(detect mu var p_prev price).z| ∧ ¬ in_cooldown ts la <;>
    simp [monitor_tick, h1, h2]

lemma in_cooldown_iff (ts : ℝ) (la : Option ℝ) :
    in_cooldown ts la ↔ ∃ t, la = some t ∧ hours_between ts t < COOLDOWN_HOURS := by
  cases la <;> simp [in_cooldown]

/-! ### Projection identities for `detect` -/

lemma detect_r (mu var p_prev price : ℝ) :
    (detect mu var p_prev price).r = Real.log (price / p_prev) := rfl

lemma detect_mu (mu var p_prev price : ℝ) :
    (detect mu var p_prev price).mu =
      LAMBDA * Real.log (price / p_prev) + (1 - LAMBDA) * mu := rfl

lemma detect_err (mu var p_prev price : ℝ) :
    (detect mu var p_prev price).err =
      Real.log (price / p_prev) - (detect mu var p_prev price).mu := rfl

lemma detect_var (mu var p_prev price : ℝ) :
    (detect mu var p_prev price).var =
      LAMBDA * (detect mu var p_prev price).err ^ 2 + (1 - LAMBDA) * var := rfl

lemma detect_z (mu var p_prev price : ℝ) :
    (detect mu var p_prev price).z =
      (detect mu var p_prev price).err /
        Real.sqrt ((detect mu var p_prev price).var + EPS) := rfl

/-! ### Claim theorems for the EWMA tick -/

/-- C1: on a non-bootstrap tick with positive prices, the monitor computes
`r = ln(p / p_prev)`, `mu2 = 0.1*r + 0.9*mu`, the residual `e = r - mu2`
against the updated mean, `var2 = 0.1*e^2 + 0.9*var`, and
`z = e / sqrt(var2 + 1e-12)`; these are the values placed in the tick's
history row, so for fixed inputs the outputs are uniquely determined. -/
theorem ewma_update_formulas (mu var p_prev price : ℝ)
    (hprev : 0 < p_prev) (hp : 0 < price) :
    (detect mu var p_prev price).r = Real.log (price / p_prev) ∧
    (detect mu var p_prev price).mu = 0.1 * Real.log (price / p_prev) + 0.9 * mu ∧
    (detect mu var p_prev price).err =
      Real.log (price / p_prev) - (detect mu var p_prev price).mu ∧
    (detect mu var p_prev price).var =
      0.1 * (detect mu var p_prev price).err ^ 2 + 0.9 * var ∧
    (detect mu var p_prev price).z =
      (detect mu var p_prev price).err /
        Real.sqrt ((detect mu var p_prev price).var + 1e-12) ∧
    (∀ (la : Option ℝ) (n : ℕ) (ts : ℝ),
      (monitor_tick ⟨some p_prev, mu, var, la, n⟩ price ts).2.r =
          some (detect mu var p_prev price).r ∧
      (monitor_tick ⟨some p_prev, mu, var, la, n⟩ price ts).2.z =
          some (detect mu var p_prev price).z) := by
  refine ⟨rfl, ?_, detect_err mu var p_prev price, ?_, ?_, ?_⟩
  · rw [detect_mu, LAMBDA]; norm_num
  · rw [detect_var, LAMBDA]; norm_num
  · rw [detect_z, EPS]
  · intro la n ts
    rw [monitor_tick_some]
    split <;> exact ⟨rfl, rfl⟩

/-- C1 witness at a concrete positive input. -/
theorem ewma_update_formulas_witness :
    (detect 0 1e-8 500 600).r = Real.log (600 / 500) ∧
    (detect 0 1e-8 500 600).mu = 0.1 * Real.log (600 / 500) + 0.9 * 0 ∧
    (detect 0 1e-8 500 600).err =
      Real.log (600 / 500) - (detect 0 1e-8 500 600).mu ∧
    (detect 0 1e-8 500 600).var =
      0.1 * (detect 0 1e-8 500 600).err ^ 2 + 0.9 * 1e-8 ∧
    (detect 0 1e-8 500 600).z =
      (detect 0 1e-8 500 600).err /
        Real.sqrt ((detect 0 1e-8 500 600).var + 1e-12) ∧
    (∀ (la : Option ℝ) (n : ℕ) (ts : ℝ),
      (monitor_tick ⟨some 500, 0, 1e-8, la, n⟩ 600 ts).2.r =
          some (detect 0 1e-8 500 600).r ∧
      (monitor_tick ⟨some 500, 0, 1e-8, la, n⟩ 600 ts).2.z =
          some (detect 0 1e-8 500 600).z) :=
  ewma_update_formulas 0 1e-8 500 600 (by norm_num) (by norm_num)

/-- C2: on a non-bootstrap tick an alert fires iff the post-increment sample
count is at least 48, the absolute z-score is at least 3.0, and the tick is
not in cooldown (a last alert timestamp exists whose undirected distance to
now is strictly below 3 hours); on fire the last alert timestamp becomes the
tick's timestamp, and the row's alert flag records the outcome. -/
theorem alert_gate_characterization (s : MState) (p_prev price ts : ℝ)
    (h : s.prev_price = some p_prev) :
    ((monitor_tick s price ts).2.alert = AlertFlag.alert ↔
      (48 ≤ s.n + 1 ∧ (3.0 : ℝ) ≤ |(detect s.mu s.var p_prev price).z| ∧
        ¬ ∃ t, s.last_alert_time = some t ∧ hours_between ts t < 3)) ∧
    ((monitor_tick s price ts).2.alert = AlertFlag.alert →
      (monitor_tick s price ts).1.last_alert_time = some ts) ∧
    ((monitor_tick s price ts).2.alert ≠ AlertFlag.alert →
      ((monitor_tick s price ts).2.alert = AlertFlag.no_alert ∧
        (monitor_tick s price ts).1.last_alert_time = s.last_alert_time)) := by
  obtain ⟨pp, mu, var, la, n⟩ := s
  simp only [MState.prev_price] at h
  subst h
  rw [monitor_tick_some]
  have hiff : (WARMUP_HOURS ≤ n + 1 ∧
      Z_THRESHOLD ≤ |(detect mu var p_prev price).z| ∧ ¬ in_cooldown ts la) ↔
      (48 ≤ n + 1 ∧ (3.0 : ℝ) ≤ |(detect mu var p_prev price).z| ∧
        ¬ ∃ t, la = some t ∧ hours_between ts t < 3) := by
    rw [in_cooldown_iff, WARMUP_HOURS, Z_THRESHOLD, COOLDOWN_HOURS]
  split
  case isTrue hc =>
    exact ⟨iff_of_true rfl (hiff.mp hc), fun _ => rfl, fun hne => absurd rfl hne⟩
  case isFalse hc =>
    exact ⟨iff_of_false (by simp) (fun hcl => hc (hiff.mpr hcl)),
      fun habs => absurd habs (by simp), fun _ => ⟨rfl, rfl⟩⟩

/-- C2 witness: state past warm-up with no previous alert, a large move. -/
theorem alert_gate_characterization_witness :
    ((monitor_tick ⟨some 500, 0, 1e-8, none, 47⟩ 600 0).2.alert = AlertFlag.alert ↔
      (48 ≤ 47 + 1 ∧ (3.0 : ℝ) ≤ |(detect 0 1e-8 500 600).z| ∧
        ¬ ∃ t, (none : Option ℝ) = some t ∧ hours_between 0 t < 3)) ∧
    ((monitor_tick ⟨some 500, 0, 1e-8, none, 47⟩ 600 0).2.alert = AlertFlag.alert →
      (monitor_tick ⟨some 500, 0, 1e-8, none, 47⟩ 600 0).1.last_alert_time = some 0) ∧
    ((monitor_tick ⟨some 500, 0, 1e-8, none, 47⟩ 600 0).2.alert ≠ AlertFlag.alert →
      ((monitor_tick ⟨some 500, 0, 1e-8, none, 47⟩ 600 0).2.alert = AlertFlag.no_alert ∧
        (monitor_tick ⟨some 500, 0, 1e-8, none, 47⟩ 600 0).1.last_alert_time = none)) :=
  alert_gate_characterization ⟨some 500, 0, 1e-8, none, 47⟩ 500 600 0 rfl

/-- C3: a run that starts with no previous price (the bootstrap run) never
raises an alert, records the fetched price as `prev_price`, appends a history
row with empty return, z-score and alert fields, leaves `mu`, `var`, `n` and
`last_alert_time` unchanged, and performs no detection. -/
theorem bootstrap_run (w : World) (price ts : ℝ)
    (h : w.state.prev_price = none) :
    (main_step w (Except.ok price) ts).state.prev_price = some price ∧
    (main_step w (Except.ok price) ts).state.mu = w.state.mu ∧
    (main_step w (Except.ok price) ts).state.var = w.state.var ∧
    (main_step w (Except.ok price) ts).state.n = w.state.n ∧
    (main_step w (Except.ok price) ts).state.last_alert_time = w.state.last_alert_time ∧
    (main_step w (Except.ok price) ts).history =
      w.history ++
        [{ time := ts, price := price, r := none, z := none, alert := AlertFlag.empty }] := by
  simp only [main_step]
  rw [monitor_tick_none w.state price ts h]
  exact ⟨rfl, rfl, rfl, rfl, rfl, rfl⟩

/-- C3 witness: the very first run from the fresh default state. -/
theorem bootstrap_run_witness :
    (main_step init_world (Except.ok 500) 0).state.prev_price = some 500 ∧
    (main_step init_world (Except.ok 500) 0).state.mu = init_world.state.mu ∧
    (main_step init_world (Except.ok 500) 0).state.var = init_world.state.var ∧
    (main_step init_world (Except.ok 500) 0).state.n = init_world.state.n ∧
    (main_step init_world (Except.ok 500) 0).state.last_alert_time =
      init_world.state.last_alert_time ∧
    (main_step init_world (Except.ok 500) 0).history =
      init_world.history ++
        [{ time := 0, price := 500, r := none, z := none, alert := AlertFlag.empty }] :=
  bootstrap_run init_world 500 0 rfl

/-- C4: a failed fetch or parse aborts the tick with the persisted state and
history unchanged; a successful fetch is followed by exactly the tick's state
write and one appended history row. -/
theorem fetch_failure_aborts (w : World) (e : String) (price ts : ℝ) :
    main_step w (Except.error e) ts = w ∧
    (main_step w (Except.ok price) ts).state = (monitor_tick w.state price ts).1 ∧
    (main_step w (Except.ok price) ts).history =
      w.history ++ [(monitor_tick w.state price ts).2] :=
  ⟨rfl, rfl, rfl⟩

/-! ### Step lemmas for the invariants -/

lemma monitor_tick_prev (s : MState) (price ts : ℝ) :
    (monitor_tick s price ts).1.prev_price = some price := by
  obtain ⟨pp, mu, var, la, n⟩ := s
  cases pp with
  | none => rw [monitor_tick_none _ _ _ rfl]
  | some p_prev => rw [monitor_tick_some]; split <;> rfl

lemma monitor_tick_var_pos (s : MState) (price ts : ℝ) (h : 0 < s.var) :
    0 < (monitor_tick s price ts).1.var := by
  obtain ⟨pp, mu, var, la, n⟩ := s
  cases pp with
  | none => rw [monitor_tick_none _ _ _ rfl]; exact h
  | some p_prev =>
      have hv : 0 < (detect mu var p_prev price).var := by
        rw [detect_var, LAMBDA]
        nlinarith [sq_nonneg ((detect mu var p_prev price).err), h]
      rw [monitor_tick_some]; split <;> exact hv

lemma monitor_tick_n_mono (s : MState) (price ts : ℝ) :
    s.n ≤ (monitor_tick s price ts).1.n := by
  obtain ⟨pp, mu, var, la, n⟩ := s
  cases pp with
  | none => rw [monitor_tick_none _ _ _ rfl]
  | some p_prev => rw [monitor_tick_some]; split <;> exact Nat.le_succ n

lemma monitor_tick_n_succ (s : MState) (p_prev price ts : ℝ)
    (h : s.prev_price = some p_prev) :
    (monitor_tick s price ts).1.n = s.n + 1 := by
  obtain ⟨pp, mu, var, la, n⟩ := s
  simp only [MState.prev_price] at h
  subst h
  rw [monitor_tick_some]; split <;> rfl

lemma main_step_var_pos (w : World) (f : Except String ℝ) (ts : ℝ)
    (h : 0 < w.state.var) : 0 < (main_step w f ts).state.var := by
  cases f with
  | error e => exact h
  | ok price => exact monitor_tick_var_pos w.state price ts h

lemma main_step_n_mono (w : World) (f : Except String ℝ) (ts : ℝ) :
    w.state.n ≤ (main_step w f ts).state.n := by
  cases f with
  | error e => exact le_rfl
  | ok price => exact monitor_tick_n_mono w.state price ts

lemma exec_cons (w : World) (run : Except String ℝ × ℝ)
    (rest : List (Except String ℝ × ℝ)) :
    exec w (run :: rest) = exec (main_step w run.1 run.2) rest := rfl

lemma exec_var_pos (runs : List (Except String ℝ × ℝ)) (w : World)
    (h : 0 < w.state.var) : 0 < (exec w runs).state.var := by
  induction runs generalizing w with
  | nil => exact h
  | cons run rest ih =>
      rw [exec_cons]
      exact ih _ (main_step_var_pos w run.1 run.2 h)

lemma exec_n_mono (runs : List (Except String ℝ × ℝ)) (w : World) :
    w.state.n ≤ (exec w runs).state.n := by
  induction runs generalizing w with
  | nil => exact le_rfl
  | cons run rest ih =>
      rw [exec_cons]
      exact le_trans (main_step_n_mono w run.1 run.2) (ih _)

lemma exec_append (w : World) (l1 l2 : List (Except String ℝ × ℝ)) :
    exec w (l1 ++ l2) = exec (exec w l1) l2 := by
  simp [exec, List.foldl_append]

/-- C6: across every sequence of runs from the fresh default state the
variance stays strictly positive, the sample count never decreases when
further runs are appended, and any single run either leaves `prev_price`
unchanged (failed fetch) or overwrites it with the newest fetched price. -/
theorem state_invariants (runs extra : List (Except String ℝ × ℝ))
    (w : World) (f : Except String ℝ) (ts : ℝ) :
    0 < (exec init_world runs).state.var ∧
    (exec init_world runs).state.n ≤ (exec init_world (runs ++ extra)).state.n ∧
    ((main_step w f ts).state.prev_price = w.state.prev_price ∨
      ∃ price, f = Except.ok price ∧
        (main_step w f ts).state.prev_price = some price) := by
  refine ⟨exec_var_pos runs init_world (by norm_num [init_world, init_state]), ?_, ?_⟩
  · rw [exec_append]
    exact exec_n_mono extra (exec init_world runs)
  · cases f with
    | error e => exact Or.inl rfl
    | ok price => exact Or.inr ⟨price, rfl, monitor_tick_prev w.state price ts⟩

/-! ### Sample-count bookkeeping across successful runs -/

lemma exec_ok_from_some (l : List (ℝ × ℝ)) (w : World) (p : ℝ)
    (h : w.state.prev_price = some p) :
    (exec w (l.map fun run => (Except.ok run.1, run.2))).state.n =
      w.state.n + l.length := by
  induction l generalizing w p with
  | nil => rfl
  | cons run rest ih =>
      rw [List.map_cons, exec_cons]
      have hstep : (main_step w (Except.ok run.1) run.2).state =
          (monitor_tick w.state run.1 run.2).1 := rfl
      have hn := monitor_tick_n_succ w.state p run.1 run.2 h
      have hp2 := monitor_tick_prev w.state run.1 run.2
      rw [ih (main_step w (Except.ok run.1) run.2) run.1 (by rw [hstep]; exact hp2)]
      rw [hstep, hn, List.length_cons]
      omega

/-- C10: the bootstrap run does not increment the sample count, a
non-bootstrap tick increments it by exactly one, so after k successful runs
from the fresh state the count is k - 1 and the warm-up condition n at least
48 first becomes satisfiable on the 49th successful run. -/
theorem sample_count_schedule (runs : List (ℝ × ℝ))
    (mu var q price ts : ℝ) (la : Option ℝ) (n : ℕ) :
    (monitor_tick ⟨none, mu, var, la, n⟩ price ts).1.n = n ∧
    (monitor_tick ⟨some q, mu, var, la, n⟩ price ts).1.n = n + 1 ∧
    (exec_ok runs).state.n = runs.length - 1 ∧
    (48 ≤ (exec_ok runs).state.n ↔ 49 ≤ runs.length) := by
  have hboot : (monitor_tick ⟨none, mu, var, la, n⟩ price ts).1.n = n := by
    rw [monitor_tick_none _ _ _ rfl]
  have hlen : (exec_ok runs).state.n = runs.length - 1 := by
    cases runs with
    | nil => rfl
    | cons run rest =>
        show (exec init_world ((run :: rest).map fun r => (Except.ok r.1, r.2))).state.n = _
        rw [List.map_cons, exec_cons]
        have hstep : (main_step init_world (Except.ok run.1) run.2).state =
            (monitor_tick init_state run.1 run.2).1 := rfl
        rw [exec_ok_from_some rest _ run.1
          (by rw [hstep]; exact monitor_tick_prev init_state run.1 run.2)]
        rw [hstep, monitor_tick_none init_state run.1 run.2 rfl]
        simp [init_state]
  refine ⟨hboot, monitor_tick_n_succ _ q price ts rfl, hlen, ?_⟩
  rw [hlen]
  omega

/-! ### `send_daily.py`: the daily message schedule

Local dates are modelled as proleptic-Gregorian ordinals (the integer
`date.toordinal()` assigns to a day), so `date` subtraction is integer
subtraction; the time of day is a rational and only flows into the special
slot choice.  `content.py` (the message texts, `determine_special_slot` and
`generate_daily_message`) is not part of the sources, so the outcome is
modelled from the spec as a constructor recording which message-producing
path `pick_message` takes: `special t` stands for
`SPECIAL_MESSAGES_BY_SLOT[determine_special_slot(t)]` and `daily k` for
`generate_daily_message(k)`; the two skip constructors stand for the
`sys.exit(0)` paths taken before any request to the endpoint is made. -/

/-- The ordinal of `START_DATE = date(2025, 12, 29)` in `send_daily.py`. -/
def START_DATE : ℤ := 739614

def TOTAL_DAYS : ℤ := 365

/-- Modelled from the spec: the four outcomes of `pick_message` (the message
bodies produced by the missing `content.py` are abstracted into the
constructor arguments). -/
inductive PickResult where
  | skip_before
  | skip_after
  | special (time : ℚ)
  | daily (day_index : ℤ)
deriving DecidableEq, Repr

/-- Embeds `compute_day_index` (lines 37-38). -/
def compute_day_index (local_date : ℤ) : ℤ :=
  (local_date - START_DATE) + 1

/-- Embeds `pick_message` (lines 41-62): skip before the start date and after
the last day (`START_DATE + TOTAL_DAYS - 1`), special content on the start
date itself, otherwise the generated message for the computed day index. -/
def pick_message (local_date : ℤ) (time : ℚ) : PickResult :=
  if local_date < START_DATE then PickResult.skip_before
  else if local_date > START_DATE + (TOTAL_DAYS - 1) then PickResult.skip_after
  else if local_date = START_DATE then PickResult.special time
  else PickResult.daily (compute_day_index local_date)

/-- C8: for every local date, `pick_message` skips (exiting before contacting
the endpoint) strictly before the start date and strictly after day 364 after
it, returns the slot-gated special message exactly on the start date, and
otherwise returns the generated message for day index
`(date - START_DATE) + 1`. -/
theorem pick_message_schedule (j : ℕ) (t : ℚ) :
    pick_message (START_DATE - 1 - (j : ℤ)) t = PickResult.skip_before ∧
    pick_message (START_DATE + 365 + (j : ℤ)) t = PickResult.skip_after ∧
    pick_message START_DATE t = PickResult.special t ∧
    (j < 364 →
      pick_message (START_DATE + 1 + (j : ℤ)) t =
        PickResult.daily ((j : ℤ) + 2)) := by
  have hj : (0 : ℤ) ≤ (j : ℤ) := Int.ofNat_nonneg j
  refine ⟨?_, ?_, ?_, ?_⟩
  · rw [pick_message, if_pos (by omega)]
  · rw [pick_message, if_neg (by omega), TOTAL_DAYS, if_pos (by omega)]
  · rw [pick_message, if_neg (by omega), TOTAL_DAYS, if_neg (by omega), if_pos rfl]
  · intro hlt
    have hlt2 : (j : ℤ) < 364 := by exact_mod_cast hlt
    rw [pick_message, if_neg (by omega), TOTAL_DAYS, if_neg (by omega),
      if_neg (by omega), compute_day_index]
    congr 1
    omega

/-- C8 witness: the sixth day after the start date yields day index 7. -/
theorem pick_message_schedule_witness :
    pick_message (START_DATE + 1 + ((5 : ℕ) : ℤ)) 0 =
      PickResult.daily (((5 : ℕ) : ℤ) + 2) :=
  (pick_message_schedule 5 0).2.2.2 (by norm_num)

/-! ### JSON documents and Python value semantics

`response.json()` yields Python objects built from `None`, booleans, numbers,
strings, lists and dicts.  `Json` models these, with rationals for numbers
(Python `int` and `float` compare equal when numerically equal, which is what
`monitor.py` relies on).  `dict.get` returns `None` for a missing key, which
is the same value as a stored JSON `null`, so both are `Json.null`. -/

inductive Json where
  | null
  | bool (b : Bool)
  | num (q : ℚ)
  | str (s : String)
  | arr (items : List Json)
  | obj (fields : List (String × Json))

/-- Python truthiness of a JSON value: `None`, `False`, `0`, `""`, `[]` and
an empty dict are falsy. -/
def truthy : Json → Bool
  | Json.null => false
  | Json.bool b => b
  | Json.num q => !(q == 0)
  | Json.str s => !(s == "")
  | Json.arr items => !items.isEmpty
  | Json.obj fields => !fields.isEmpty

/-- Python `a or b`: returns `a` when truthy, else `b`. -/
def orJ (a b : Json) : Json :=
  if truthy a then a else b

/-- First binding of a key in a dict (Python dicts have unique keys, so first
match is the binding). -/
def getEntries : List (String × Json) → String → Json
  | [], _ => Json.null
  | kv :: rest, key => if kv.1 == key then kv.2 else getEntries rest key

/-- Python `d.get(key)` (with `None`, i.e. `Json.null`, as default); the
embedding only applies it to dicts. -/
def getJ : Json → String → Json
  | Json.obj fields, key => getEntries fields key
  | _, _ => Json.null

/-- Python `key in d`. -/
def hasKey : Json → String → Bool
  | Json.obj fields, key => fields.any (fun kv => kv.1 == key)
  | _, _ => false

def isObj : Json → Bool
  | Json.obj _ => true
  | _ => false

def isNull : Json → Bool
  | Json.null => true
  | _ => false

/-- Python `s.replace(c, "")` for a one-character pattern. -/
def pyRemoveChar (c : Char) (s : String) : String :=
  ⟨s.data.filter (fun a => a != c)⟩

/-- Python `s.replace(c, d)` for one-character pattern and replacement. -/
def pyMapChar (f : Char → Char) (s : String) : String :=
  ⟨s.data.map f⟩

/-- Python `s.upper()` (ASCII; the strings fed to it here are catalogue
currency codes). -/
def pyUpper (s : String) : String :=
  pyMapChar Char.toUpper s

/-- Python `s.strip()`. -/
def pyStrip (s : String) : String :=
  ⟨((s.data.dropWhile Char.isWhitespace).reverse.dropWhile Char.isWhitespace).reverse⟩

/-- Python `s.endswith(suffix)`. -/
def pyEndsWith (s suffix : String) : Bool :=
  suffix.data.isSuffixOf s.data

/-- Models Python `str()` as used when `normalize_rates` builds a pair string
from base/quote fields.  It is exact on strings, booleans and `None`; the
rendering of numbers, lists and dicts is a fixed stand-in (no theorem below
depends on it, since the claims about `select_price` quantify over the
normalized documents on both sides of each equation). -/
def jstr : Json → String
  | Json.str s => s
  | Json.bool b => if b then "True" else "False"
  | Json.null => "None"
  | Json.num q => toString q
  | Json.arr _ => "<list>"
  | Json.obj _ => "<dict>"

/-- Numeric value of a digit run. -/
def digitsVal (cs : List Char) : ℕ :=
  cs.foldl (fun acc c => acc * 10 + (c.toNat - 48)) 0

/-- Exponent suffix of a Python float literal (`e`/`E` already consumed). -/
def parseExpPart (m : ℚ) (cs : List Char) : Option ℚ :=
  let signed : ℤ × List Char :=
    match cs with
    | '-' :: rest => (-1, rest)
    | '+' :: rest => (1, rest)
    | _ => (1, cs)
  let ds := signed.2.takeWhile Char.isDigit
  if ds.isEmpty || !(signed.2.dropWhile Char.isDigit).isEmpty then none
  else some (m * (10 : ℚ) ^ (signed.1 * (digitsVal ds : ℤ)))

/-- Models Python `float(str)` on decimal literals: optional sign, an integer
part and/or a fractional part, and an optional exponent (the `inf`/`nan`
spellings are not modelled). -/
def parseFloat (s : String) : Option ℚ :=
  let signed : ℚ × List Char :=
    match s.data with
    | '-' :: rest => (-1, rest)
    | '+' :: rest => (1, rest)
    | cs => (1, cs)
  let intPart := signed.2.takeWhile Char.isDigit
  let afterInt := signed.2.dropWhile Char.isDigit
  match afterInt with
  | [] =>
      if intPart.isEmpty then none
      else some (signed.1 * (digitsVal intPart : ℚ))
  | '.' :: rest =>
      let fracPart := rest.takeWhile Char.isDigit
      let afterFrac := rest.dropWhile Char.isDigit
      if intPart.isEmpty && fracPart.isEmpty then none
      else
        let mant := signed.1 *
          ((digitsVal intPart : ℚ) + (digitsVal fracPart : ℚ) / (10 : ℚ) ^ fracPart.length)
        match afterFrac with
        | [] => some mant
        | c :: rest2 =>
            if c == 'e' || c == 'E' then parseExpPart mant rest2 else none
  | c :: rest =>
      if (c == 'e' || c == 'E') && !intPart.isEmpty then
        parseExpPart (signed.1 * (digitsVal intPart : ℚ)) rest
      else none

/-- Embeds `to_float` (lines 36-47): `None` maps to `None`, numbers (and
booleans, which are `int`s in Python) to their float value, strings are
stripped, spaces removed and commas turned into dots before parsing, and
anything else maps to `None`. -/
def to_float (value : Json) : Option ℚ :=
  match value with
  | Json.null => none
  | Json.bool b => some (if b then 1 else 0)
  | Json.num q => some q
  | Json.str s =>
      parseFloat (pyMapChar (fun c => if c == ',' then '.' else c)
        (pyRemoveChar ' ' (pyStrip s)))
  | Json.arr _ => none
  | Json.obj _ => none

/-! ### `normalize_rates` (lines 60-155) -/

/-- First key of `keys` whose value in `entry` is a list. -/
def findListKey (entry : Json) : List String → Option (List Json)
  | [] => none
  | key :: rest =>
      match getJ entry key with
      | Json.arr items => some items
      | _ => findListKey entry rest

/-- The `entries` preamble (lines 61-70): a dict is unwrapped through the
first of `data`/`rates`/`items`/`result`/`content` holding a list (else it is
the single entry), a list is used as is, anything else is wrapped. -/
def entriesOf (raw : Json) : List Json :=
  match raw with
  | Json.obj fields =>
      match findListKey (Json.obj fields) ["data", "rates", "items", "result", "content"] with
      | some items => items
      | none => [Json.obj fields]
  | Json.arr items => items
  | j => [j]

def isAlphaStr (s : String) : Bool :=
  !(s == "") && s.data.all Char.isAlpha

/-- The pair computation of `normalize_rates` (lines 76-109): the alias chain
for `pair`, then the base/quote fallback, then the lone-base heuristics. -/
def pairOf (entry : Json) : Json :=
  let pair0 := orJ (getJ entry "pair") (orJ (getJ entry "pairCode") (getJ entry "ccyPair"))
  if truthy pair0 then pair0
  else
    let base := orJ (getJ entry "ccy") (orJ (getJ entry "currency") (orJ (getJ entry "base")
      (orJ (getJ entry "baseCcy") (orJ (getJ entry "fromCcy")
        (orJ (getJ entry "currencyFrom") (getJ entry "ccyCode"))))))
    let quote := orJ (getJ entry "ccy2") (orJ (getJ entry "quote") (orJ (getJ entry "term")
      (orJ (getJ entry "quoteCcy") (orJ (getJ entry "toCcy") (getJ entry "currencyTo")))))
    if truthy base && truthy quote then Json.str (jstr base ++ "/" ++ jstr quote)
    else if truthy base then
      let base_str := jstr base
      if base_str.data.contains '/' || base_str.data.contains '-' then Json.str base_str
      else if base_str.data.length == 6 && isAlphaStr base_str &&
          pyEndsWith (pyUpper base_str) "KZT" then Json.str base_str
      else Json.str (base_str ++ "/KZT")
    else pair0

/-- One field of a rebuilt tier (lines 132-144): the primary key if present
(even when bound to `None`), else the alias chain. -/
def tierField (tier : Json) (primary fallback1 fallback2 : String) : Json :=
  if hasKey tier primary then getJ tier primary
  else orJ (getJ tier fallback1) (getJ tier fallback2)

def normTier (tier : Json) : Json :=
  Json.obj [("from", tierField tier "from" "fromAmount" "amountFrom"),
            ("to", tierField tier "to" "toAmount" "amountTo"),
            ("buy", tierField tier "buy" "buyRate" "rateBuy"),
            ("sell", tierField tier "sell" "sellRate" "rateSell")]

/-- The `tiers_raw` computation (lines 113-123): the first list-valued alias
key, else a synthetic single tier from top-level buy/sell when either is not
`None`. -/
def tiersRawOf (entry : Json) : Option (List Json) :=
  match findListKey entry ["tiers", "gradations", "rates", "items", "rateList", "lines"] with
  | some items => some items
  | none =>
      let buy := orJ (getJ entry "buy") (getJ entry "buyRate")
      let sell := orJ (getJ entry "sell") (getJ entry "sellRate")
      if !(isNull buy) || !(isNull sell) then
        some [Json.obj [("from", Json.num 0), ("to", Json.null),
                        ("buy", buy), ("sell", sell)]]
      else none

/-- The `date` alias chain (line 110). -/
def dateOf (entry : Json) : Json :=
  orJ (getJ entry "date") (orJ (getJ entry "rateDate") (getJ entry "asOf"))

/-- The `branch` alias chain (line 111). -/
def branchOf (entry : Json) : Json :=
  orJ (getJ entry "branch") (orJ (getJ entry "branchId")
    (orJ (getJ entry "office") (getJ entry "filial")))

/-- The rebuilt tier list (lines 125-145): non-dict tiers are skipped. -/
def tiersOf (entry : Json) : List Json :=
  match tiersRawOf entry with
  | none => []
  | some items => items.filterMap (fun t => if isObj t then some (normTier t) else none)

/-- One normalized record (lines 76-154) for a dict entry. -/
def normEntry (entry : Json) : Json :=
  Json.obj [("date", dateOf entry), ("branch", branchOf entry), ("pair", pairOf entry),
            ("tiers", Json.arr (tiersOf entry))]

/-- Embeds `normalize_rates`: non-dict entries are skipped, dict entries are
rebuilt into the canonical record shape. -/
def normalize_rates (raw : Json) : List Json :=
  (entriesOf raw).filterMap (fun e => if isObj e then some (normEntry e) else none)

/-! ### `select_price` (lines 158-184) -/

/-- Errors of the selection path: `PErr.typeError` models an
`AttributeError`/`TypeError` crash (e.g. `.replace` on a non-string pair),
`PErr.notFound` models the `ValueError` raised at line 184. -/
inductive PErr where
  | typeError
  | notFound
deriving DecidableEq, Repr

instance : DecidableEq (Except PErr ℚ) := fun a b =>
  match a, b with
  | Except.ok x, Except.ok y => decidable_of_iff (x = y) (by simp)
  | Except.error x, Except.error y => decidable_of_iff (x = y) (by simp)
  | Except.ok _, Except.error _ => isFalse (fun hc => Except.noConfusion hc)
  | Except.error _, Except.ok _ => isFalse (fun hc => Except.noConfusion hc)

/-- The normalization `norm_pair` applies to the target string: drop `/` and
`-`, uppercase. -/
def norm_pair_str (s : String) : String :=
  pyUpper (pyRemoveChar '-' (pyRemoveChar '/' s))

/-- Embeds `norm_pair` (lines 159-160) on a stored pair value:
`(value or "")` yields `""` for falsy values, then `.replace` demands a
string. -/
def norm_pairE (value : Json) : Except PErr String :=
  if truthy value then
    match value with
    | Json.str s => Except.ok (norm_pair_str s)
    | _ => Except.error PErr.typeError
  else Except.ok ""

/-- Embeds the membership test `tier.get("from") in (0, "0", None)` (line
169); Python `==` equates `False` and `0.0` with `0`. -/
def from_is_base : Json → Bool
  | Json.num q => q == 0
  | Json.str s => s == "0"
  | Json.bool b => !b
  | Json.null => true
  | Json.arr _ => false
  | Json.obj _ => false

/-- The chosen-tier scan (lines 167-171): first tier passing the base test;
`tier.get` on a non-dict raises. -/
def find_base_tier : List Json → Except PErr (Option Json)
  | [] => Except.ok none
  | t :: rest =>
      if isObj t then
        if from_is_base (getJ t "from") then Except.ok (some t)
        else find_base_tier rest
      else Except.error PErr.typeError

/-- The value of `entry.get("tiers") or []` as an iterable list (line 166):
falsy values give `[]`, a truthy non-list crashes as soon as it is iterated
into `tier.get` calls. -/
def tiersListE (j : Json) : Except PErr (List Json) :=
  if truthy j then
    match j with
    | Json.arr items => Except.ok items
    | _ => Except.error PErr.typeError
  else Except.ok []

/-- The entry loop of `select_price` (lines 163-184). -/
def select_price_go (target : String) : List Json → Except PErr ℚ
  | [] => Except.error PErr.notFound
  | entry :: rest =>
      if isObj entry then
        match norm_pairE (getJ entry "pair") with
        | Except.error e => Except.error e
        | Except.ok np =>
            if np == target then
              match tiersListE (getJ entry "tiers") with
              | Except.error e => Except.error e
              | Except.ok tiers =>
                  match find_base_tier tiers with
                  | Except.error e => Except.error e
                  | Except.ok found =>
                      match (match found with
                             | some t => some t
                             | none => tiers.head?) with
                      | none => select_price_go target rest
                      | some c =>
                          if truthy c then
                            match to_float (getJ c "buy"), to_float (getJ c "sell") with
                            | some b, some s => Except.ok ((b + s) / 2)
                            | some b, none => Except.ok b
                            | none, some s => Except.ok s
                            | none, none => select_price_go target rest
                          else select_price_go target rest
            else select_price_go target rest
      else Except.error PErr.typeError

/-- Embeds `select_price`. -/
def select_price (normalized : List Json) (pair : String) : Except PErr ℚ :=
  select_price_go (norm_pair_str pair) normalized

/-! ### The canonical shape of normalized records -/

/-- Recognizes the tier dicts `normalize_rates` emits: exactly the keys
`from`, `to`, `buy`, `sell` in that order. -/
def isNormTier (t : Json) : Bool :=
  match t with
  | Json.obj [("from", _f), ("to", _g), ("buy", _u), ("sell", _v)] => true
  | _ => false

/-- Recognizes the records `normalize_rates` emits: exactly the keys `date`,
`branch`, `pair`, `tiers` in that order, with a list of tier dicts. -/
def isNormEntry (e : Json) : Bool :=
  match e with
  | Json.obj [("date", _d), ("branch", _b), ("pair", _p), ("tiers", Json.arr ts)] =>
      ts.all isNormTier
  | _ => false

/-- A pair field on which `norm_pair` does not crash: a string, or any falsy
value (which `(value or "")` turns into `""`). -/
def pair_field_ok (j : Json) : Bool :=
  match j with
  | Json.str _ => true
  | j2 => !truthy j2

def pairOk (e : Json) : Bool :=
  pair_field_ok (getJ e "pair")

lemma isNormTier_shape (t : Json) (h : isNormTier t = true) :
    ∃ f g u v, t = Json.obj [("from", f), ("to", g), ("buy", u), ("sell", v)] := by
  unfold isNormTier at h
  split at h
  next f g u v => exact ⟨f, g, u, v, rfl⟩
  next => exact absurd h (by simp)

lemma isNormEntry_shape (e : Json) (h : isNormEntry e = true) :
    ∃ d b p ts, e = Json.obj [("date", d), ("branch", b), ("pair", p),
        ("tiers", Json.arr ts)] ∧ ∀ t ∈ ts, isNormTier t = true := by
  unfold isNormEntry at h
  split at h
  next d b p ts => exact ⟨d, b, p, ts, rfl, by simpa [List.all_eq_true] using h⟩
  next => exact absurd h (by simp)

lemma normTier_isNormTier (t : Json) : isNormTier (normTier t) = true := rfl

lemma normEntry_isNormEntry (e : Json) : isNormEntry (normEntry e) = true := by
  show (tiersOf e).all isNormTier = true
  rw [List.all_eq_true]
  intro t ht
  unfold tiersOf at ht
  split at ht
  · exact absurd ht (List.not_mem_nil t)
  · rw [List.mem_filterMap] at ht
    obtain ⟨t0, _, ht0⟩ := ht
    by_cases hobj : isObj t0
    · rw [if_pos hobj, Option.some_inj] at ht0
      rw [← ht0]
      exact normTier_isNormTier t0
    · rw [if_neg hobj] at ht0
      exact absurd ht0 (Option.noConfusion)

lemma normalize_rates_isNormEntry (raw : Json) (e : Json)
    (h : e ∈ normalize_rates raw) : isNormEntry e = true := by
  unfold normalize_rates at h
  rw [List.mem_filterMap] at h
  obtain ⟨e0, _, he0⟩ := h
  by_cases hobj : isObj e0
  · rw [if_pos hobj, Option.some_inj] at he0
    rw [← he0]
    exact normEntry_isNormEntry e0
  · rw [if_neg hobj] at he0
    exact absurd he0 (Option.noConfusion)

/-! ### The selection rule in the words of the specification

These definitions restate `select_price` the way the specification describes
it (filter the matching entries, choose a tier, take midpoint-or-single
rate), to be compared with the embedding above. -/

/-- The normalized pair string of a stored pair value, in the spec's words:
falsy values read as `""`, strings are normalized, anything else (on which
the code would crash) has no normalized form. -/
def pair_norm_opt (j : Json) : Option String :=
  if truthy j then
    match j with
    | Json.str s => some (norm_pair_str s)
    | _ => none
  else some ""

/-- An entry "matching the target pair" in the spec's sense. -/
def entry_matches (target : String) (e : Json) : Bool :=
  pair_norm_opt (getJ e "pair") == some target

def getArr : Json → List Json
  | Json.arr items => items
  | _ => []

/-- The chosen tier in the code's sense: first tier whose lower bound passes
the base test, else the first tier. -/
def chosen_tier (tiers : List Json) : Option Json :=
  match tiers.find? (fun t => from_is_base (getJ t "from")) with
  | some t => some t
  | none => tiers.head?

/-- The rate a tier yields: midpoint of buy/sell when both parse, else
whichever parses, else nothing. -/
def tier_rate (t : Json) : Option ℚ :=
  match to_float (getJ t "buy"), to_float (getJ t "sell") with
  | some b, some s => some ((b + s) / 2)
  | some b, none => some b
  | none, some s => some s
  | none, none => none

def select_rate_of_entry (e : Json) : Option ℚ :=
  (chosen_tier (getArr (getJ e "tiers"))).bind tier_rate

/-- `select_price` in the spec's words: first rate among the matching
entries, else the pair-not-found error. -/
def select_price_spec (normalized : List Json) (pair : String) : Except PErr ℚ :=
  match (normalized.filter (entry_matches (norm_pair_str pair))).findSome?
      select_rate_of_entry with
  | some q => Except.ok q
  | none => Except.error PErr.notFound

/-- The claim's stricter tier test: a lower bound that is explicitly zero
(the number `0` or the string `"0"`), not a missing/`None` bound. -/
def from_is_explicit_zero : Json → Bool
  | Json.num q => q == 0
  | Json.str s => s == "0"
  | _ => false

def chosen_tier_claimed (tiers : List Json) : Option Json :=
  match tiers.find? (fun t => from_is_explicit_zero (getJ t "from")) with
  | some t => some t
  | none => tiers.head?

def select_rate_of_entry_claimed (e : Json) : Option ℚ :=
  (chosen_tier_claimed (getArr (getJ e "tiers"))).bind tier_rate

/-- `select_price` as claim C5 literally states it, with the explicit-zero
tier rule. -/
def select_price_claimed (normalized : List Json) (pair : String) : Except PErr ℚ :=
  match (normalized.filter (entry_matches (norm_pair_str pair))).findSome?
      select_rate_of_entry_claimed with
  | some q => Except.ok q
  | none => Except.error PErr.notFound

/-! ### Relating `select_price` to the spec-side selection -/

/-- The normalized pair string the code computes for a non-crashing pair
value. -/
def pair_norm_val (p : Json) : String :=
  match p with
  | Json.str s => norm_pair_str s
  | _ => ""

lemma norm_pair_str_empty : norm_pair_str "" = "" := by decide

lemma norm_pairE_of_ok (p : Json) (h : pair_field_ok p = true) :
    norm_pairE p = Except.ok (pair_norm_val p) := by
  cases p with
  | str s =>
      by_cases hs : s = ""
      · subst hs
        show Except.ok "" = Except.ok (norm_pair_str "")
        rw [norm_pair_str_empty]
      · have ht : truthy (Json.str s) = true := by simp [truthy, hs]
        simp [norm_pairE, ht, pair_norm_val]
  | null => rfl
  | bool b =>
      cases b with
      | false => rfl
      | true => exact absurd h (by simp [pair_field_ok, truthy])
  | num q =>
      have ht : truthy (Json.num q) = false := by simpa [pair_field_ok] using h
      simp [norm_pairE, ht, pair_norm_val]
  | arr items =>
      have ht : truthy (Json.arr items) = false := by simpa [pair_field_ok] using h
      simp [norm_pairE, ht, pair_norm_val]
  | obj fields =>
      have ht : truthy (Json.obj fields) = false := by simpa [pair_field_ok] using h
      simp [norm_pairE, ht, pair_norm_val]

lemma pair_norm_opt_of_ok (p : Json) (h : pair_field_ok p = true) :
    pair_norm_opt p = some (pair_norm_val p) := by
  cases p with
  | str s =>
      by_cases hs : s = ""
      · subst hs
        show some "" = some (norm_pair_str "")
        rw [norm_pair_str_empty]
      · have ht : truthy (Json.str s) = true := by simp [truthy, hs]
        simp [pair_norm_opt, ht, pair_norm_val]
  | null => rfl
  | bool b =>
      cases b with
      | false => rfl
      | true => exact absurd h (by simp [pair_field_ok, truthy])
  | num q =>
      have ht : truthy (Json.num q) = false := by simpa [pair_field_ok] using h
      simp [pair_norm_opt, ht, pair_norm_val]
  | arr items =>
      have ht : truthy (Json.arr items) = false := by simpa [pair_field_ok] using h
      simp [pair_norm_opt, ht, pair_norm_val]
  | obj fields =>
      have ht : truthy (Json.obj fields) = false := by simpa [pair_field_ok] using h
      simp [pair_norm_opt, ht, pair_norm_val]

lemma getJ_entry_pair (d b p j : Json) :
    getJ (Json.obj [("date", d), ("branch", b), ("pair", p), ("tiers", j)]) "pair" = p := rfl

lemma getJ_entry_tiers (d b p j : Json) :
    getJ (Json.obj [("date", d), ("branch", b), ("pair", p), ("tiers", j)]) "tiers" = j := rfl

lemma getJ_tier_from (f g u v : Json) :
    getJ (Json.obj [("from", f), ("to", g), ("buy", u), ("sell", v)]) "from" = f := rfl

lemma getJ_tier_buy (f g u v : Json) :
    getJ (Json.obj [("from", f), ("to", g), ("buy", u), ("sell", v)]) "buy" = u := rfl

lemma getJ_tier_sell (f g u v : Json) :
    getJ (Json.obj [("from", f), ("to", g), ("buy", u), ("sell", v)]) "sell" = v := rfl

lemma isNormTier_isObj (t : Json) (h : isNormTier t = true) : isObj t = true := by
  obtain ⟨f, g, u, v, rfl⟩ := isNormTier_shape t h
  rfl

lemma isNormTier_truthy (t : Json) (h : isNormTier t = true) : truthy t = true := by
  obtain ⟨f, g, u, v, rfl⟩ := isNormTier_shape t h
  rfl

lemma tiersListE_arr (ts : List Json) : tiersListE (Json.arr ts) = Except.ok ts := by
  cases ts <;> rfl

lemma find_base_tier_eq (ts : List Json) (h : ∀ t ∈ ts, isObj t = true) :
    find_base_tier ts =
      Except.ok (ts.find? (fun t => from_is_base (getJ t "from"))) := by
  induction ts with
  | nil => rfl
  | cons t rest ih =>
      have ht := h t (List.mem_cons_self t rest)
      simp only [find_base_tier, if_pos ht]
      cases hb : from_is_base (getJ t "from") with
      | true => simp [List.find?, hb]
      | false =>
          simp only [Bool.false_eq_true, if_false]
          rw [ih (fun x hx => h x (List.mem_cons_of_mem t hx))]
          simp [List.find?, hb]

lemma chosen_tier_mem (ts : List Json) (c : Json) (h : chosen_tier ts = some c) :
    c ∈ ts := by
  unfold chosen_tier at h
  split at h
  next t hfind =>
    rw [Option.some_inj] at h
    subst h
    exact List.mem_of_find?_eq_some hfind
  next hfind => exact List.mem_of_mem_head? (Option.mem_def.mpr h)

lemma rate_match_eq (t : Json) (hti : isNormTier t = true) (cont : Except PErr ℚ) :
    (if truthy t then
       match to_float (getJ t "buy"), to_float (getJ t "sell") with
       | some b, some s => Except.ok ((b + s) / 2)
       | some b, none => Except.ok b
       | none, some s => Except.ok s
       | none, none => cont
     else cont) =
    (match tier_rate t with
     | some q => Except.ok q
     | none => cont) := by
  obtain ⟨f, g, u, v, rfl⟩ := isNormTier_shape t hti
  have htr : truthy (Json.obj [("from", f), ("to", g), ("buy", u), ("sell", v)]) = true := rfl
  rw [if_pos htr]
  unfold tier_rate
  rw [getJ_tier_buy, getJ_tier_sell]
  cases to_float u <;> cases to_float v <;> rfl

lemma inner_select_eq (ts : List Json) (hts : ∀ t ∈ ts, isNormTier t = true)
    (cont : Except PErr ℚ) :
    (match find_base_tier ts with
     | Except.error e => Except.error e
     | Except.ok found =>
         match (match found with
                | some t => some t
                | none => ts.head?) with
         | none => cont
         | some c =>
             if truthy c then
               match to_float (getJ c "buy"), to_float (getJ c "sell") with
               | some b, some s => Except.ok ((b + s) / 2)
               | some b, none => Except.ok b
               | none, some s => Except.ok s
               | none, none => cont
             else cont) =
    (match (chosen_tier ts).bind tier_rate with
     | some q => Except.ok q
     | none => cont) := by
  rw [find_base_tier_eq ts (fun t ht => isNormTier_isObj t (hts t ht))]
  unfold chosen_tier
  cases hfind : ts.find? (fun t => from_is_base (getJ t "from")) with
  | some t =>
      have htmem := List.mem_of_find?_eq_some hfind
      simp only [Option.bind_some]
      exact rate_match_eq t (hts t htmem) cont
  | none =>
      cases ts with
      | nil => rfl
      | cons t0 ts2 =>
          simp only [List.head?_cons, Option.bind_some]
          exact rate_match_eq t0 (hts t0 (List.mem_cons_self t0 ts2)) cont

lemma select_price_go_eq_spec (target : String) (l : List Json)
    (h1 : ∀ e ∈ l, isNormEntry e = true) (h2 : ∀ e ∈ l, pairOk e = true) :
    select_price_go target l =
      (match (l.filter (entry_matches target)).findSome? select_rate_of_entry with
       | some q => Except.ok q
       | none => Except.error PErr.notFound) := by
  induction l with
  | nil => rfl
  | cons e rest ih =>
      have he1 := h1 e (List.mem_cons_self e rest)
      have he2 := h2 e (List.mem_cons_self e rest)
      have ih2 := ih (fun x hx => h1 x (List.mem_cons_of_mem e hx))
        (fun x hx => h2 x (List.mem_cons_of_mem e hx))
      obtain ⟨d, b, p, ts, rfl, hts⟩ := isNormEntry_shape e he1
      have hp : pair_field_ok p = true := he2
      have hobj : isObj (Json.obj [("date", d), ("branch", b), ("pair", p),
          ("tiers", Json.arr ts)]) = true := rfl
      simp only [select_price_go, if_pos hobj, getJ_entry_pair, getJ_entry_tiers,
        norm_pairE_of_ok p hp, tiersListE_arr]
      have hmatchv : entry_matches target (Json.obj [("date", d), ("branch", b), ("pair", p),
          ("tiers", Json.arr ts)]) = (pair_norm_val p == target) := by
        unfold entry_matches
        rw [getJ_entry_pair, pair_norm_opt_of_ok p hp]
        cases hv : pair_norm_val p == target <;> simp [hv]
      cases hm : pair_norm_val p == target with
      | true =>
          have hmt : (pair_norm_val p == target) = true := hm
          rw [if_pos (by simpa using hmt)]
          rw [List.filter_cons_of_pos (by rw [hmatchv]; exact hmt), List.findSome?_cons]
          have hsre : select_rate_of_entry (Json.obj [("date", d), ("branch", b), ("pair", p),
              ("tiers", Json.arr ts)]) = (chosen_tier ts).bind tier_rate := rfl
          rw [hsre, inner_select_eq ts hts (select_price_go target rest), ih2]
          cases hbind : (chosen_tier ts).bind tier_rate <;> rfl
      | false =>
          rw [if_neg (by simp [hm])]
          rw [List.filter_cons_of_neg (by rw [hmatchv]; simp [hm])]
          exact ih2

/-! ### Claim theorems for `select_price` -/

/-- A normalized record set on which the code's base-tier rule (which also
accepts a missing or `None` lower bound) and the claim's explicit-zero rule
pick different tiers. -/
def counterexample_entries : List Json :=
  [Json.obj [("date", Json.null), ("branch", Json.null), ("pair", Json.str "EURKZT"),
    ("tiers", Json.arr [
      Json.obj [("from", Json.num 1), ("to", Json.null),
                ("buy", Json.num 2), ("sell", Json.null)],
      Json.obj [("from", Json.null), ("to", Json.null),
                ("buy", Json.num 4), ("sell", Json.null)]])]]

/-- C5 counterexample: `counterexample_entries` is a reachable output of
`normalize_rates`, its tiers have lower bounds `1` and `None`, and the code
returns the rate of the `None`-bound tier (line 169 accepts `None` in
`(0, "0", None)`), while the selection described by the claim (explicit zero
lower bound, else first tier) returns the first tier's rate; so the claim as
stated is false. -/
theorem select_price_accepts_null_lower_bound :
    normalize_rates (Json.arr [Json.obj [("pair", Json.str "EURKZT"),
      ("tiers", Json.arr [Json.obj [("from", Json.num 1), ("buy", Json.num 2)],
                          Json.obj [("buy", Json.num 4)]])]]) =
      counterexample_entries ∧
    select_price counterexample_entries "EURKZT" = Except.ok 4 ∧
    select_price_claimed counterexample_entries "EURKZT" = Except.ok 2 ∧
    (Except.ok 4 : Except PErr ℚ) ≠ Except.ok 2 := by
  refine ⟨by rfl, by decide, by decide, by decide⟩

/-- C5 (amended): on record sets of the canonical normalized shape whose pair
fields are strings or falsy, `select_price` behaves exactly as the spec-side
selection: it considers exactly the entries matching the target pair (after
dropping `/` and `-` and uppercasing), within an entry picks the first tier
whose lower bound is `0`, `"0"` or missing/`None`, falling back to the first
tier, returns the buy/sell midpoint or the single present rate, and fails
with the pair-not-found error when no matching entry yields a rate. -/
theorem select_price_follows_spec (normalized : List Json) (pair : String)
    (h1 : ∀ e ∈ normalized, isNormEntry e = true)
    (h2 : ∀ e ∈ normalized, pairOk e = true) :
    select_price normalized pair = select_price_spec normalized pair :=
  select_price_go_eq_spec (norm_pair_str pair) normalized h1 h2

def witness_entries : List Json :=
  [Json.obj [("date", Json.null), ("branch", Json.null), ("pair", Json.str "USDKZT"),
    ("tiers", Json.arr [
      Json.obj [("from", Json.num 0), ("to", Json.null),
                ("buy", Json.num 3), ("sell", Json.null)]])]]

/-- C5 witness at a concrete normalized record set. -/
theorem select_price_follows_spec_witness :
    select_price witness_entries "USD-KZT" = select_price_spec witness_entries "USD-KZT" :=
  select_price_follows_spec witness_entries "USD-KZT" (by decide) (by decide)

/-- A reachable normalized record whose pair field is a truthy non-string. -/
def bad_pair_entries : List Json :=
  [Json.obj [("date", Json.null), ("branch", Json.null), ("pair", Json.num 5),
    ("tiers", Json.arr [])]]

/-- C9 counterexample: on a normalized record set (an actual
`normalize_rates` output) whose only entry carries a numeric pair field, no
entry matches the target, yet `select_price` raises the `.replace` crash
(`AttributeError`), not the pair-not-found lookup error the claim promises. -/
theorem nonstring_pair_raises_type_error :
    normalize_rates (Json.obj [("pair", Json.num 5)]) = bad_pair_entries ∧
    select_price bad_pair_entries "EURKZT" = Except.error PErr.typeError ∧
    (Except.error PErr.typeError : Except PErr ℚ) ≠ Except.error PErr.notFound := by
  refine ⟨by rfl, by decide, by decide⟩

/-- C9 (amended): when every tier of every entry matching the target pair has
neither a parseable buy nor a parseable sell, and every entry's pair field is
a string or falsy, `select_price` raises the same pair-not-found error as for
a record set without the pair at all (matching entries whose chosen tier
yields no numeric rate are silently skipped). -/
theorem no_parseable_rate_not_found (normalized : List Json) (pair : String)
    (h1 : ∀ e ∈ normalized, isNormEntry e = true)
    (h2 : ∀ e ∈ normalized, pairOk e = true)
    (h3 : ∀ e ∈ normalized, entry_matches (norm_pair_str pair) e = true →
      ∀ t ∈ getArr (getJ e "tiers"),
        to_float (getJ t "buy") = none ∧ to_float (getJ t "sell") = none) :
    select_price normalized pair = Except.error PErr.notFound ∧
    select_price ([] : List Json) pair = Except.error PErr.notFound := by
  constructor
  · rw [select_price, select_price_go_eq_spec _ _ h1 h2]
    have hnone : (normalized.filter (entry_matches (norm_pair_str pair))).findSome?
        select_rate_of_entry = none := by
      rw [List.findSome?_eq_none_iff]
      intro e he
      rw [List.mem_filter] at he
      obtain ⟨hmem, hmatch⟩ := he
      cases hc : chosen_tier (getArr (getJ e "tiers")) with
      | none => simp [select_rate_of_entry, hc]
      | some c =>
          have hcmem := chosen_tier_mem _ _ hc
          have hrt := h3 e hmem hmatch c hcmem
          simp [select_rate_of_entry, hc, tier_rate, hrt.1, hrt.2]
    rw [hnone]
  · rfl

def no_rate_entries : List Json :=
  [Json.obj [("date", Json.null), ("branch", Json.null), ("pair", Json.str "EURKZT"),
    ("tiers", Json.arr [
      Json.obj [("from", Json.num 0), ("to", Json.null),
                ("buy", Json.null), ("sell", Json.null)]])]]

/-- C9 witness: a matching entry whose only tier has no parseable rates. -/
theorem no_parseable_rate_not_found_witness :
    select_price no_rate_entries "EURKZT" = Except.error PErr.notFound ∧
    select_price ([] : List Json) "EURKZT" = Except.error PErr.notFound :=
  no_parseable_rate_not_found no_rate_entries "EURKZT" (by decide) (by decide) (by decide)

/-! ### Idempotence of normalization with respect to selection

Re-normalizing an already-normalized record list preserves every field a
truthy value; a falsy `pair`/`date`/`branch` collapses to `None` because the
alias chains return the last (`None`) alias.  `renorm` captures exactly this
effect of the second pass. -/

def renorm_field (j : Json) : Json :=
  orJ j Json.null

def renorm (e : Json) : Json :=
  match e with
  | Json.obj [("date", d), ("branch", b), ("pair", p), ("tiers", t)] =>
      Json.obj [("date", renorm_field d), ("branch", renorm_field b),
                ("pair", renorm_field p), ("tiers", t)]
  | j => j

lemma dateOf_canonical (d b p : Json) (ts : List Json) :
    dateOf (Json.obj [("date", d), ("branch", b), ("pair", p), ("tiers", Json.arr ts)]) =
      renorm_field d := by
  simp [dateOf, renorm_field, getJ, getEntries, orJ, truthy]

lemma branchOf_canonical (d b p : Json) (ts : List Json) :
    branchOf (Json.obj [("date", d), ("branch", b), ("pair", p), ("tiers", Json.arr ts)]) =
      renorm_field b := by
  simp [branchOf, renorm_field, getJ, getEntries, orJ, truthy]

lemma pairOf_canonical (d b p : Json) (ts : List Json) :
    pairOf (Json.obj [("date", d), ("branch", b), ("pair", p), ("tiers", Json.arr ts)]) =
      renorm_field p := by
  cases htp : truthy p <;>
    simp [pairOf, renorm_field, getJ, getEntries, orJ, truthy, htp]

lemma tiersRawOf_canonical (d b p : Json) (ts : List Json) :
    tiersRawOf (Json.obj [("date", d), ("branch", b), ("pair", p), ("tiers", Json.arr ts)]) =
      some ts := by
  simp [tiersRawOf, findListKey, getJ, getEntries]

lemma normTier_canonical (t : Json) (h : isNormTier t = true) : normTier t = t := by
  obtain ⟨f, g, u, v, rfl⟩ := isNormTier_shape t h
  simp [normTier, tierField, hasKey, getJ, getEntries]

lemma tiersOf_canonical (d b p : Json) (ts : List Json)
    (hts : ∀ t ∈ ts, isNormTier t = true) :
    tiersOf (Json.obj [("date", d), ("branch", b), ("pair", p), ("tiers", Json.arr ts)]) =
      ts := by
  unfold tiersOf
  rw [tiersRawOf_canonical]
  show ts.filterMap (fun t => if isObj t then some (normTier t) else none) = ts
  have hcongr : ∀ t ∈ ts, (if isObj t then some (normTier t) else none) = some t := by
    intro t ht
    rw [if_pos (isNormTier_isObj t (hts t ht)), normTier_canonical t (hts t ht)]
  rw [List.filterMap_congr hcongr, List.filterMap_some]

lemma normEntry_canonical (e : Json) (h : isNormEntry e = true) :
    normEntry e = renorm e := by
  obtain ⟨d, b, p, ts, rfl, hts⟩ := isNormEntry_shape e h
  unfold normEntry
  rw [dateOf_canonical, branchOf_canonical, pairOf_canonical, tiersOf_canonical d b p ts hts]
  rfl

lemma normalize_rates_renorm (raw : Json) :
    normalize_rates (Json.arr (normalize_rates raw)) = (normalize_rates raw).map renorm := by
  have hobj : ∀ e ∈ normalize_rates raw, isObj e = true := by
    intro e he
    obtain ⟨d, b, p, ts, rfl, -⟩ :=
      isNormEntry_shape e (normalize_rates_isNormEntry raw e he)
    rfl
  have hentries : entriesOf (Json.arr (normalize_rates raw)) = normalize_rates raw := rfl
  show (entriesOf (Json.arr (normalize_rates raw))).filterMap
      (fun e => if isObj e then some (normEntry e) else none) = _
  rw [hentries]
  have hcongr : ∀ e ∈ normalize_rates raw,
      (if isObj e then some (normEntry e) else none) = some (renorm e) := by
    intro e he
    rw [if_pos (hobj e he), normEntry_canonical e (normalize_rates_isNormEntry raw e he)]
  rw [List.filterMap_congr hcongr]
  have hcomp : (fun e => some (renorm e)) = some ∘ renorm := rfl
  rw [hcomp, List.filterMap_eq_map]

lemma norm_pairE_renorm_field (p : Json) :
    norm_pairE (renorm_field p) = norm_pairE p := by
  cases htp : truthy p with
  | true =>
      have : renorm_field p = p := by rw [renorm_field, orJ, if_pos htp]
      rw [this]
  | false =>
      have hnull : renorm_field p = Json.null := by rw [renorm_field, orJ, if_neg (by simp [htp])]
      have h2 : norm_pairE p = Except.ok "" := by
        unfold norm_pairE
        rw [htp]
        simp
      rw [hnull, h2]
      rfl

lemma select_price_go_renorm (target : String) (l : List Json)
    (h1 : ∀ e ∈ l, isNormEntry e = true) :
    select_price_go target (l.map renorm) = select_price_go target l := by
  induction l with
  | nil => rfl
  | cons e rest ih =>
      have he1 := h1 e (List.mem_cons_self e rest)
      have ih2 := ih (fun x hx => h1 x (List.mem_cons_of_mem e hx))
      obtain ⟨d, b, p, ts, rfl, hts⟩ := isNormEntry_shape e he1
      have hre : renorm (Json.obj [("date", d), ("branch", b), ("pair", p),
          ("tiers", Json.arr ts)]) =
          Json.obj [("date", renorm_field d), ("branch", renorm_field b),
                    ("pair", renorm_field p), ("tiers", Json.arr ts)] := rfl
      rw [List.map_cons, hre]
      simp only [select_price_go, getJ_entry_pair, getJ_entry_tiers,
        norm_pairE_renorm_field, tiersListE_arr]
      have hobj1 : isObj (Json.obj [("date", renorm_field d), ("branch", renorm_field b),
          ("pair", renorm_field p), ("tiers", Json.arr ts)]) = true := rfl
      have hobj2 : isObj (Json.obj [("date", d), ("branch", b), ("pair", p),
          ("tiers", Json.arr ts)]) = true := rfl
      rw [if_pos hobj1, if_pos hobj2]
      cases hnp : norm_pairE p with
      | error err => rfl
      | ok np =>
          dsimp only
          cases hm : np == target with
          | false =>
              simp only [Bool.false_eq_true, if_false]
              exact ih2
          | true =>
              rw [if_pos rfl, if_pos rfl]
              rw [inner_select_eq ts hts (select_price_go target (rest.map renorm)),
                inner_select_eq ts hts (select_price_go target rest)]
              cases (chosen_tier ts).bind tier_rate with
              | some q => rfl
              | none => exact ih2

/-- C7: normalizing an already-normalized record list again and selecting the
price gives the same result as selecting from the once-normalized list, for
every raw document and target pair. -/
theorem normalize_idempotent_for_selection (raw : Json) (pair : String) :
    select_price (normalize_rates (Json.arr (normalize_rates raw))) pair =
      select_price (normalize_rates raw) pair := by
  rw [select_price, select_price, normalize_rates_renorm raw]
  exact select_price_go_renorm (norm_pair_str pair) (normalize_rates raw)
    (fun e he => normalize_rates_isNormEntry raw e he)
